import Mathlib

/-!
# ChunkIO frame codec: a shallow embedding

Shallow embedding of the `ChunkIOProto` codec from `src/src/lib.rs`
(the `Decoder::decode` and `Encoder::encode` implementations), together
with the driver loop that feeds a byte buffer to `decode` to exhaustion
(the behaviour of the framed adapter's read path).

Bytes are modelled as `Nat` (values `< 256` on every wire the encoder can
produce); buffers are `List Nat`; the two `u64` cursors are `Nat`
(no claim exercises `u64` overflow).
-/

namespace ChunkIO

/-- The two error variants of `ChunkIOError` that the codec itself can
produce (`Future` only wraps transport I/O failures and never arises in
`encode`/`decode`). -/
inductive ChunkIOError where
  | invalidChunk
  | outOfOrder
deriving DecidableEq, Repr

/-- Codec state: `current_index: (u64, u64)` — send cursor and receive
cursor. -/
structure ChunkIOProto where
  sendIndex : Nat
  recvIndex : Nat
deriving DecidableEq, Repr

/-- Big-endian value of a byte list: `foldl (fun a x => a * 256 + x) 0`. -/
def beVal (l : List Nat) : Nat := l.foldl (fun a x => a * 256 + x) 0

/-- `u64::to_be_bytes` / `usize::to_be_bytes` followed by
`skip_while(|x| *x == 0)`: the big-endian digits of `n` with no leading
zero bytes, empty for `n = 0`.  Structural recursion on a fuel argument
(`n` itself suffices since `n / 256 < n` for `n > 0`). -/
def beDigits : Nat → Nat → List Nat
  | 0, _ => []
  | _ + 1, 0 => []
  | f + 1, n + 1 => beDigits f ((n + 1) / 256) ++ [(n + 1) % 256]

/-- Minimal-width big-endian byte string of `n` (empty for `0`). -/
def minBE (n : Nat) : List Nat := beDigits n n

/-- The `index` match of `decode` (src/src/lib.rs lines 82–97): parse the
offset field given `index_pointer = ip`.  The Rust slices `src[1..ip]`
(`ip - 1` bytes) and converts with `try_into` into a `[u8; 4]`
(arms `3..=4`) or `[u8; 8]` (arms `5..=8`); the conversion succeeds only
when the slice has exactly 4 resp. 8 bytes, otherwise `InvalidChunk`. -/
def parseIndex (src : List Nat) (ip : Nat) : Except ChunkIOError Nat :=
  if ip = 0 then .ok 0
  else if ip = 1 then .ok (src.getD 1 0)
  else if ip = 2 then .ok (src.getD 1 0 * 256 + src.getD 2 0)
  else if ip ≤ 4 then
    if ((src.drop 1).take (ip - 1)).length = 4 then
      .ok (beVal ((src.drop 1).take (ip - 1)))
    else .error .invalidChunk
  else if ip ≤ 8 then
    if ((src.drop 1).take (ip - 1)).length = 8 then
      .ok (beVal ((src.drop 1).take (ip - 1)))
    else .error .invalidChunk
  else .error .invalidChunk

/-- The `length` match of `decode` (src/src/lib.rs lines 102–121): parse
the length field given `index_pointer = ip`, `length_pointer = lw`.  The
Rust slices `src[1 + ip..ip + lw]` (`lw - 1` bytes) in the `3..=4` and
`5..=8` arms, with the same `try_into` behaviour as for the offset. -/
def parseLen (src : List Nat) (ip lw : Nat) : Except ChunkIOError Nat :=
  if lw = 1 then .ok (src.getD (1 + ip) 0)
  else if lw = 2 then .ok (src.getD (1 + ip) 0 * 256 + src.getD (2 + ip) 0)
  else if lw ≤ 4 then
    if ((src.drop (1 + ip)).take (lw - 1)).length = 4 then
      .ok (beVal ((src.drop (1 + ip)).take (lw - 1)))
    else .error .invalidChunk
  else if lw ≤ 8 then
    if ((src.drop (1 + ip)).take (lw - 1)).length = 8 then
      .ok (beVal ((src.drop (1 + ip)).take (lw - 1)))
    else .error .invalidChunk
  else .error .invalidChunk

/-- One outcome of `Decoder::decode`: the returned
`Result<Option<Vec<u8>>, ChunkIOError>` together with the codec state and
the buffer after the call (the Rust mutates `self` and `src` in place). -/
def decode (st : ChunkIOProto) (src : List Nat) :
    Except ChunkIOError (Option (List Nat)) × ChunkIOProto × List Nat :=
  -- `index_pointer` is `src[0] >> 4` and `len_pointer` is `src[0] & 0xf`,
  -- written out as `src.getD 0 0 / 16` and `src.getD 0 0 % 16` below.
  if src.length < 2 then (.ok none, st, src)
  else if 8 < src.getD 0 0 / 16 ∨ 8 < src.getD 0 0 % 16 ∨ src.getD 0 0 % 16 = 0 then
    (.error .invalidChunk, st, src)
  else if src.length < src.getD 0 0 % 16 + src.getD 0 0 / 16 + 1 then (.ok none, st, src)
  else
    match parseIndex src (src.getD 0 0 / 16) with
    | .error e => (.error e, st, src)
    | .ok index =>
      if st.recvIndex ≠ index then (.error .outOfOrder, st, src)
      else
        match parseLen src (src.getD 0 0 / 16) (src.getD 0 0 % 16) with
        | .error e => (.error e, st, src)
        | .ok length =>
          if src.length < src.getD 0 0 / 16 + src.getD 0 0 % 16 + length + 1 then
            (.ok none, st, src)
          else
            (.ok (some ((src.drop (src.getD 0 0 / 16 + src.getD 0 0 % 16 + 1)).take length)),
             { st with recvIndex := st.recvIndex + length },
             (src.drop (src.getD 0 0 / 16 + src.getD 0 0 % 16 + 1)).drop length)

/-- `Encoder::encode` (src/src/lib.rs lines 135–156): appends
`[(iw << 4) | lw] ++ index_bytes ++ length_bytes ++ payload` to `dst` and
advances the send cursor; always `Ok`.  Modelled as returning the bytes
appended to `dst`. -/
def encode (st : ChunkIOProto) (item : List Nat) :
    Except ChunkIOError (ChunkIOProto × List Nat) :=
  let index := minBE st.sendIndex
  let length := minBE item.length
  .ok ({ st with sendIndex := st.sendIndex + item.length },
    (index.length <<< 4 ||| length.length) :: (index ++ length ++ item))

/-- Encode a sequence of chunks through one codec instance, concatenating
the produced bytes (the send path of the framed adapter). -/
def encodeAll (st : ChunkIOProto) (items : List (List Nat)) :
    ChunkIOProto × List Nat :=
  match items with
  | [] => (st, [])
  | item :: rest =>
    match encode st item with
    | .ok (st', out) =>
      let (st'', outs) := encodeAll st' rest
      (st'', out ++ outs)
    | .error _ => (st, [])

/-- How a run of repeated `decode` calls on one buffer ends: the decoder
asked for more data, or it failed. -/
inductive Terminal where
  | needMore
  | err (e : ChunkIOError)
deriving DecidableEq, Repr

/-- Result of draining a buffer: the chunks produced, the final codec
state, the unconsumed bytes, and how the run ended. -/
structure DrainResult where
  chunks : List (List Nat)
  state : ChunkIOProto
  rest : List Nat
  term : Terminal
deriving DecidableEq, Repr

/-- Fuel-indexed driver loop: call `decode` repeatedly, collecting chunks,
until it returns `None` (need more data) or an error.  Any fuel above the
buffer length reaches the true outcome, since each produced chunk consumes
at least two bytes from the buffer. -/
def drainFuel : Nat → ChunkIOProto → List Nat → DrainResult
  | 0, st, src => ⟨[], st, src, .needMore⟩
  | f + 1, st, src =>
    match decode st src with
    | (.ok (some c), st', src') =>
      let r := drainFuel f st' src'
      ⟨c :: r.chunks, r.state, r.rest, r.term⟩
    | (.ok none, st', src') => ⟨[], st', src', .needMore⟩
    | (.error e, st', src') => ⟨[], st', src', .err e⟩

/-- Feed a whole buffer to the decoder and call `decode` to exhaustion:
the read path of the framed adapter on one batch of arrived bytes. -/
def drain (st : ChunkIOProto) (src : List Nat) : DrainResult :=
  drainFuel (src.length + 1) st src

/-- Append a newly arrived piece to the unconsumed buffer and drain again,
accumulating chunks; the terminal outcome is that of the latest drain. -/
def feedPiece (r : DrainResult) (piece : List Nat) : DrainResult :=
  let r2 := drain r.state (r.rest ++ piece)
  ⟨r.chunks ++ r2.chunks, r2.state, r2.rest, r2.term⟩

/-- Deliver an encoded stream in pieces: starting from codec state `st`
and an empty buffer, append each piece in turn and decode to exhaustion. -/
def feedAll (st : ChunkIOProto) (pieces : List (List Nat)) : DrainResult :=
  pieces.foldl feedPiece ⟨[], st, [], .needMore⟩

/-! ## List slicing helpers -/

theorem take_drop_append (b e : List Nat) (k m : Nat) (h : k + m ≤ b.length) :
    ((b ++ e).drop k).take m = (b.drop k).take m := by
  rw [List.drop_append_of_le_length (by omega),
    List.take_append_of_le_length (by rw [List.length_drop]; omega)]

theorem drop_drop_append (b e : List Nat) (k m : Nat) (h : k + m ≤ b.length) :
    ((b ++ e).drop k).drop m = (b.drop k).drop m ++ e := by
  rw [List.drop_append_of_le_length (by omega),
    List.drop_append_of_le_length (by rw [List.length_drop]; omega)]

/-! ## The field parsers read only the fixed-width header prefix -/

theorem parseIndex_append (b e : List Nat) (ip : Nat) (h : ip + 2 ≤ b.length) :
    parseIndex (b ++ e) ip = parseIndex b ip := by
  unfold parseIndex
  rw [take_drop_append _ _ 1 (ip - 1) (by omega),
    List.getD_append _ _ 0 1 (by omega)]
  split_ifs with h0 h1 h2
  all_goals first
    | rfl
    | rw [List.getD_append _ _ 0 2 (by omega)]

theorem parseLen_append (b e : List Nat) (ip lw : Nat) (hlw : 1 ≤ lw)
    (h : 1 + ip + lw ≤ b.length) :
    parseLen (b ++ e) ip lw = parseLen b ip lw := by
  unfold parseLen
  rw [take_drop_append _ _ (1 + ip) (lw - 1) (by omega),
    List.getD_append _ _ 0 (1 + ip) (by omega)]
  split_ifs with h1 h2
  all_goals first
    | rfl
    | rw [List.getD_append _ _ 0 (2 + ip) (by omega)]

/-! ## Frame properties of one `decode` call -/

theorem decode_none_eq (st : ChunkIOProto) (src : List Nat)
    (h : (decode st src).1 = .ok none) : decode st src = (.ok none, st, src) := by
  revert h
  unfold decode
  repeat' split
  all_goals intro h
  all_goals simp_all

theorem decode_error_eq (st : ChunkIOProto) (src : List Nat) (e : ChunkIOError)
    (h : (decode st src).1 = .error e) : decode st src = (.error e, st, src) := by
  revert h
  unfold decode
  repeat' split
  all_goals intro h
  all_goals simp_all

theorem decode_some_inv (st : ChunkIOProto) (src : List Nat) (c : List Nat)
    (st' : ChunkIOProto) (src' : List Nat)
    (h : decode st src = (.ok (some c), st', src')) :
    2 ≤ src.length ∧ src.getD 0 0 / 16 ≤ 8 ∧
    1 ≤ src.getD 0 0 % 16 ∧ src.getD 0 0 % 16 ≤ 8 ∧
    ∃ len,
      parseIndex src (src.getD 0 0 / 16) = .ok st.recvIndex ∧
      parseLen src (src.getD 0 0 / 16) (src.getD 0 0 % 16) = .ok len ∧
      src.getD 0 0 / 16 + src.getD 0 0 % 16 + len + 1 ≤ src.length ∧
      c = (src.drop (src.getD 0 0 / 16 + src.getD 0 0 % 16 + 1)).take len ∧
      st' = { st with recvIndex := st.recvIndex + len } ∧
      src' = (src.drop (src.getD 0 0 / 16 + src.getD 0 0 % 16 + 1)).drop len := by
  unfold decode at h
  repeat' split at h
  all_goals simp_all
  omega

theorem decode_some_intro (st : ChunkIOProto) (src : List Nat) (len : Nat)
    (h2 : 2 ≤ src.length)
    (hip : src.getD 0 0 / 16 ≤ 8) (hlw1 : 1 ≤ src.getD 0 0 % 16)
    (hlw8 : src.getD 0 0 % 16 ≤ 8)
    (hpi : parseIndex src (src.getD 0 0 / 16) = .ok st.recvIndex)
    (hpl : parseLen src (src.getD 0 0 / 16) (src.getD 0 0 % 16) = .ok len)
    (hfit : src.getD 0 0 / 16 + src.getD 0 0 % 16 + len + 1 ≤ src.length) :
    decode st src =
      (.ok (some ((src.drop (src.getD 0 0 / 16 + src.getD 0 0 % 16 + 1)).take len)),
       { st with recvIndex := st.recvIndex + len },
       (src.drop (src.getD 0 0 / 16 + src.getD 0 0 % 16 + 1)).drop len) := by
  unfold decode
  rw [if_neg (by omega), if_neg (by omega), if_neg (by omega), hpi]
  simp only [ne_eq, eq_self_iff_true, not_true_eq_false, if_false, hpl]
  rw [if_neg (by omega)]

theorem decode_some_shrinks (st st' : ChunkIOProto) (src src' c : List Nat)
    (h : decode st src = (.ok (some c), st', src')) : src'.length < src.length := by
  obtain ⟨h2, hip, hlw1, hlw8, len, hpi, hpl, hfit, hc, hst, hsrc⟩ :=
    decode_some_inv _ _ _ _ _ h
  subst hsrc
  simp only [List.length_drop]
  omega

/-- Successful `decode` reads only the frame it consumes: appending more
bytes to the buffer does not change the decoded chunk or the new state,
and the extra bytes stay at the tail of the leftover buffer. -/
theorem decode_some_append (st st' : ChunkIOProto) (src src' c e : List Nat)
    (h : decode st src = (.ok (some c), st', src')) :
    decode st (src ++ e) = (.ok (some c), st', src' ++ e) := by
  obtain ⟨h2, hip, hlw1, hlw8, len, hpi, hpl, hfit, hc, hst, hsrc⟩ :=
    decode_some_inv _ _ _ _ _ h
  subst hc hst hsrc
  have hb0 : (src ++ e).getD 0 0 = src.getD 0 0 := List.getD_append _ _ 0 0 (by omega)
  have h2' : 2 ≤ (src ++ e).length := by rw [List.length_append]; omega
  have hpi' : parseIndex (src ++ e) ((src ++ e).getD 0 0 / 16) = .ok st.recvIndex := by
    rw [hb0, parseIndex_append _ _ _ (by omega)]; exact hpi
  have hpl' : parseLen (src ++ e) ((src ++ e).getD 0 0 / 16) ((src ++ e).getD 0 0 % 16) =
      .ok len := by
    rw [hb0, parseLen_append _ _ _ _ (by omega) (by omega)]; exact hpl
  have hfit' : (src ++ e).getD 0 0 / 16 + (src ++ e).getD 0 0 % 16 + len + 1 ≤
      (src ++ e).length := by
    rw [hb0, List.length_append]; omega
  rw [decode_some_intro st (src ++ e) len h2' (by rw [hb0]; exact hip)
    (by rw [hb0]; exact hlw1) (by rw [hb0]; exact hlw8) hpi' hpl' hfit']
  rw [hb0, take_drop_append _ _ _ _ (by omega), drop_drop_append _ _ _ _ (by omega)]

/-! ## The drain loop -/

theorem drainFuel_congr : ∀ (f g : Nat) (st : ChunkIOProto) (b : List Nat),
    b.length < f → b.length < g → drainFuel f st b = drainFuel g st b := by
  intro f
  induction f with
  | zero => intro g st b hf; omega
  | succ f ih =>
    intro g st b hf hg
    cases g with
    | zero => omega
    | succ g =>
      rcases hd : decode st b with ⟨res, st', b'⟩
      match res with
      | .ok (some c) =>
        have hlt := decode_some_shrinks _ _ _ _ _ hd
        simp only [drainFuel, hd]
        rw [ih g st' b' (by omega) (by omega)]
      | .ok none => simp only [drainFuel, hd]
      | .error e => simp only [drainFuel, hd]

theorem drain_eq_fuel (f : Nat) (st : ChunkIOProto) (b : List Nat)
    (hf : b.length < f) : drainFuel f st b = drain st b :=
  drainFuel_congr f (b.length + 1) st b hf (by omega)

theorem drain_some (st st' : ChunkIOProto) (b b' c : List Nat)
    (h : decode st b = (.ok (some c), st', b')) :
    drain st b = ⟨c :: (drain st' b').chunks, (drain st' b').state,
      (drain st' b').rest, (drain st' b').term⟩ := by
  have hlt := decode_some_shrinks _ _ _ _ _ h
  conv_lhs => unfold drain
  simp only [drainFuel, h]
  rw [drain_eq_fuel b.length st' b' (by omega)]

theorem drain_none (st st' : ChunkIOProto) (b b' : List Nat)
    (h : decode st b = (.ok none, st', b')) :
    drain st b = ⟨[], st', b', .needMore⟩ := by
  conv_lhs => unfold drain
  simp only [drainFuel, h]

theorem drain_err (st st' : ChunkIOProto) (b b' : List Nat) (e : ChunkIOError)
    (h : decode st b = (.error e, st', b')) :
    drain st b = ⟨[], st', b', .err e⟩ := by
  conv_lhs => unfold drain
  simp only [drainFuel, h]

/-- Draining `b ++ e` is draining `b` and then continuing with `e`
appended to the leftover: decoding commutes with buffer concatenation. -/
theorem drain_append (st : ChunkIOProto) (b e : List Nat) :
    drain st (b ++ e) = feedPiece (drain st b) e := by
  suffices H : ∀ (n : Nat) (st : ChunkIOProto) (b : List Nat), b.length < n →
      drain st (b ++ e) = feedPiece (drain st b) e from
    H (b.length + 1) st b (by omega)
  intro n
  induction n with
  | zero => intro st b h; omega
  | succ n ih =>
    intro st b hb
    rcases hd : decode st b with ⟨res, st', b'⟩
    match res with
    | .ok (some c) =>
      have hlt := decode_some_shrinks _ _ _ _ _ hd
      rw [drain_some _ _ _ _ _ (decode_some_append _ _ _ _ _ _ hd),
        ih st' b' (by omega), drain_some _ _ _ _ _ hd]
      simp [feedPiece]
    | .ok none =>
      have hfr := decode_none_eq st b (by rw [hd])
      rw [hd] at hfr
      obtain ⟨hst, hb'⟩ : st' = st ∧ b' = b := by
        constructor <;> [skip; skip] <;> injection hfr with h1 h2 <;> simp_all
      subst hst hb'
      rw [drain_none _ _ _ _ hd]
      simp [feedPiece]
    | .error e' =>
      have hfr := decode_error_eq st b e' (by rw [hd])
      rw [hd] at hfr
      obtain ⟨hst, hb'⟩ : st' = st ∧ b' = b := by
        constructor <;> [skip; skip] <;> injection hfr with h1 h2 <;> simp_all
      subst hst hb'
      rw [drain_err _ _ _ _ _ hd]
      simp [feedPiece]

theorem foldl_feedPiece_drain : ∀ (ps : List (List Nat)) (st : ChunkIOProto) (b : List Nat),
    ps.foldl feedPiece (drain st b) = drain st (b ++ ps.flatten) := by
  intro ps
  induction ps with
  | nil => intro st b; simp [List.foldl]
  | cons p ps ih =>
    intro st b
    rw [List.foldl_cons, ← drain_append, ih st (b ++ p)]
    simp [List.append_assoc]

/-! ## Minimal-width big-endian encoding -/

theorem beVal_snoc (xs : List Nat) (y : Nat) :
    beVal (xs ++ [y]) = beVal xs * 256 + y := by
  simp [beVal, List.foldl_append]

theorem beDigits_zero (f : Nat) : beDigits f 0 = [] := by
  cases f <;> rfl

theorem beVal_beDigits : ∀ (f n : Nat), n ≤ f → beVal (beDigits f n) = n := by
  intro f
  induction f with
  | zero =>
    intro n hn
    obtain rfl : n = 0 := by omega
    rfl
  | succ f ih =>
    intro n hn
    match n with
    | 0 => rfl
    | m + 1 =>
      rw [beDigits, beVal_snoc, ih ((m + 1) / 256) (by omega)]
      omega

theorem beVal_minBE (n : Nat) : beVal (minBE n) = n :=
  beVal_beDigits n n (Nat.le_refl n)

theorem beDigits_no_leading_zero : ∀ (f n : Nat), 1 ≤ n → n ≤ f →
    beDigits f n ≠ [] ∧ (beDigits f n).headD 0 ≠ 0 := by
  intro f
  induction f with
  | zero => intro n h1 h2; omega
  | succ f ih =>
    intro n h1 h2
    match n with
    | m + 1 =>
      rw [beDigits]
      by_cases hq : (m + 1) / 256 = 0
      · rw [hq, beDigits_zero, List.nil_append]
        refine ⟨by simp, ?_⟩
        simp only [List.headD]
        omega
      · obtain ⟨hne, hhd⟩ := ih ((m + 1) / 256) (by omega) (by omega)
        cases hd : beDigits f ((m + 1) / 256) with
        | nil => exact absurd hd hne
        | cons a as =>
          rw [hd] at hhd
          refine ⟨by simp, ?_⟩
          simpa using hhd

/-- `minBE n` is the minimal-width big-endian representation of `n`: it
evaluates back to `n` and carries no leading zero byte. -/
theorem minBE_minimal (n : Nat) :
    beVal (minBE n) = n ∧ (minBE n = [] ∨ (minBE n).headD 0 ≠ 0) := by
  refine ⟨beVal_minBE n, ?_⟩
  match hn : n with
  | 0 => exact .inl rfl
  | m + 1 => exact .inr (beDigits_no_leading_zero (m + 1) (m + 1) (by omega) (by omega)).2

/-! ## The claims -/

/-- C1: the claimed encode/decode round-trip fails on the code.  The
spec's own concrete scenario `[b"A", b"", b"hello world"]` encodes (with
send-cursor 12, as specified) to a stream whose second frame is the
single header byte `0x10` followed by the offset byte: the empty chunk
gets `length_width = 0`, which the decoder rejects as `InvalidChunk`.  A
fresh decoder therefore recovers only `[b"A"]` and then fails, instead of
the original three chunks. -/
theorem roundtrip_fails_on_empty_chunk :
    encodeAll ⟨0, 0⟩ [[65], [], [104, 101, 108, 108, 111, 32, 119, 111, 114, 108, 100]] =
      (⟨12, 0⟩,
        [1, 1, 65, 16, 1, 17, 1, 11, 104, 101, 108, 108, 111, 32, 119, 111, 114, 108, 100]) ∧
    drain ⟨0, 0⟩
        [1, 1, 65, 16, 1, 17, 1, 11, 104, 101, 108, 108, 111, 32, 119, 111, 114, 108, 100] =
      ⟨[[65]], ⟨0, 1⟩, [16, 1, 17, 1, 11, 104, 101, 108, 108, 111, 32, 119, 111, 114, 108, 100],
        .err .invalidChunk⟩ := by
  constructor <;> rfl

/-- C2: partial-delivery invariance.  Feeding any byte stream to the
decoder split into arbitrary pieces — each piece appended to the
unconsumed buffer, then `decode` called to exhaustion — produces exactly
the same chunks, final codec state, leftover buffer, and terminal outcome
(need-more-data or error) as feeding the concatenated stream at once. -/
theorem piecewise_delivery_invariance (st : ChunkIOProto) (pieces : List (List Nat)) :
    feedAll st pieces = drain st pieces.flatten := by
  unfold feedAll
  rw [show (⟨[], st, [], .needMore⟩ : DrainResult) = drain st [] from rfl,
    foldl_feedPiece_drain, List.nil_append]

/-- C3: fails on the code.  The claim says the offset field is parsed as
the big-endian integer of exactly `iw` bytes after the header byte; but
for `iw = 3` the code slices `src[1..3]` (two bytes) and the `try_into`
to a 4-byte array fails, so `decode` returns `InvalidChunk` instead of
parsing offset `0` and emitting the chunk `[170]`. -/
theorem offset_width3_parse_fails :
    parseIndex [49, 0, 0, 0, 1, 170] 3 = .error .invalidChunk ∧
    decode ⟨0, 0⟩ [49, 0, 0, 0, 1, 170] =
      (.error .invalidChunk, ⟨0, 0⟩, [49, 0, 0, 0, 1, 170]) := by
  constructor <;> rfl

/-- C4: fails on the code.  On the buffer `[0x03, 0, 0, 1, 171]` the
header nibble checks pass (`iw = 0 ≤ 8`, `1 ≤ lw = 3 ≤ 8`) and the
buffer holds `5 ≥ 1 + 0 + 3` bytes, yet the slice-to-array conversion
for the length field fails (the code slices `lw - 1 = 2` bytes where the
`u32` conversion needs 4), so the "defensive, unreachable" branch is
reached and `decode` returns `InvalidChunk`. -/
theorem length_width3_conversion_fails :
    (([3, 0, 0, 1, 171] : List Nat).getD 0 0 / 16 ≤ 8 ∧
      1 ≤ ([3, 0, 0, 1, 171] : List Nat).getD 0 0 % 16 ∧
      ([3, 0, 0, 1, 171] : List Nat).getD 0 0 % 16 ≤ 8 ∧
      1 + ([3, 0, 0, 1, 171] : List Nat).getD 0 0 / 16 +
        ([3, 0, 0, 1, 171] : List Nat).getD 0 0 % 16 ≤ ([3, 0, 0, 1, 171] : List Nat).length) ∧
    parseLen [3, 0, 0, 1, 171] 0 3 = .error .invalidChunk ∧
    decode ⟨0, 0⟩ [3, 0, 0, 1, 171] = (.error .invalidChunk, ⟨0, 0⟩, [3, 0, 0, 1, 171]) := by
  exact ⟨by decide, rfl, rfl⟩

/-- C5: a buffer of at least two bytes whose first byte has high nibble
greater than 8, or low nibble greater than 8, or low nibble 0, makes
`decode` return `InvalidChunk`, yielding no chunk and leaving the state
and buffer unchanged. -/
theorem invalid_header_rejected (st : ChunkIOProto) (src : List Nat)
    (h2 : 2 ≤ src.length)
    (hbad : 8 < src.getD 0 0 / 16 ∨ 8 < src.getD 0 0 % 16 ∨ src.getD 0 0 % 16 = 0) :
    decode st src = (.error .invalidChunk, st, src) := by
  unfold decode
  rw [if_neg (by omega), if_pos hbad]

/-- Witness for C5 at the concrete buffer `[0x90, 0x00]` (high nibble 9). -/
theorem invalid_header_rejected_witness :
    decode ⟨0, 0⟩ [144, 0] = (.error .invalidChunk, ⟨0, 0⟩, [144, 0]) :=
  invalid_header_rejected ⟨0, 0⟩ [144, 0] (by decide) (by decide)

/-- C6: a buffer holding a full well-formed fixed-width header whose
offset field parses to a value different from the receive cursor makes
`decode` fail with `OutOfOrder`, leaving state and buffer unchanged; and
draining that stream emits no chunk at all, ending in the same error. -/
theorem out_of_order_rejected (st : ChunkIOProto) (src : List Nat) (idx : Nat)
    (hip : src.getD 0 0 / 16 ≤ 8) (hlw1 : 1 ≤ src.getD 0 0 % 16)
    (hlw8 : src.getD 0 0 % 16 ≤ 8)
    (hfull : src.getD 0 0 % 16 + src.getD 0 0 / 16 + 1 ≤ src.length)
    (hpi : parseIndex src (src.getD 0 0 / 16) = .ok idx)
    (hne : idx ≠ st.recvIndex) :
    decode st src = (.error .outOfOrder, st, src) ∧
    drain st src = ⟨[], st, src, .err .outOfOrder⟩ := by
  have hd : decode st src = (.error .outOfOrder, st, src) := by
    unfold decode
    rw [if_neg (by omega), if_neg (by omega), if_neg (by omega), hpi]
    simp only [ne_eq]
    rw [if_pos (by omega)]
  exact ⟨hd, drain_err _ _ _ _ _ hd⟩

/-- Witness for C6: header `0x11`, offset byte 5 against receive cursor
0. -/
theorem out_of_order_rejected_witness :
    decode ⟨0, 0⟩ [17, 5, 9] = (.error .outOfOrder, ⟨0, 0⟩, [17, 5, 9]) ∧
    drain ⟨0, 0⟩ [17, 5, 9] = ⟨[], ⟨0, 0⟩, [17, 5, 9], .err .outOfOrder⟩ :=
  out_of_order_rejected ⟨0, 0⟩ [17, 5, 9] 5 (by decide) (by decide) (by decide)
    (by decide) rfl (by decide)

/-- C7: whenever `decode` returns the need-more-data outcome it leaves
the codec state and the buffer unchanged, and calling it again on that
same state and buffer returns the same outcome with no side effects. -/
theorem need_more_data_frame (st st' : ChunkIOProto) (src src' : List Nat)
    (h : decode st src = (.ok none, st', src')) :
    st' = st ∧ src' = src ∧ decode st' src' = (.ok none, st', src') := by
  have h2 := decode_none_eq st src (by rw [h])
  rw [h] at h2
  injection h2 with h1 h2'
  injection h2' with hst hsrc
  subst hst hsrc
  exact ⟨rfl, rfl, h⟩

/-- Witness for C7 at the one-byte buffer `[5]` (below the two-byte
minimum). -/
theorem need_more_data_frame_witness :
    (⟨0, 0⟩ : ChunkIOProto) = ⟨0, 0⟩ ∧ ([5] : List Nat) = [5] ∧
    decode ⟨0, 0⟩ [5] = (.ok none, ⟨0, 0⟩, [5]) :=
  need_more_data_frame ⟨0, 0⟩ ⟨0, 0⟩ [5] [5] rfl

/-- C8: `encode` always succeeds, appending exactly the header byte
`(iw <<< 4) ||| lw` followed by the minimal-width big-endian send-cursor
bytes, the minimal-width big-endian length bytes, and the raw payload,
and advancing the send cursor by the payload length; the width fields
really are the minimal-width big-endian encodings (they evaluate back to
the original values and carry no leading zero byte). -/
theorem encode_appends_header_and_payload (st : ChunkIOProto) (item : List Nat) :
    encode st item =
      .ok ({ sendIndex := st.sendIndex + item.length, recvIndex := st.recvIndex },
        ((minBE st.sendIndex).length <<< 4 ||| (minBE item.length).length) ::
          (minBE st.sendIndex ++ minBE item.length ++ item)) ∧
    beVal (minBE st.sendIndex) = st.sendIndex ∧
    (minBE st.sendIndex = [] ∨ (minBE st.sendIndex).headD 0 ≠ 0) ∧
    beVal (minBE item.length) = item.length ∧
    (minBE item.length = [] ∨ (minBE item.length).headD 0 ≠ 0) :=
  ⟨rfl, (minBE_minimal _).1, (minBE_minimal _).2, (minBE_minimal _).1, (minBE_minimal _).2⟩

set_option maxRecDepth 8000 in
/-- C9 counterexample: a payload of length exactly 255 does NOT encode
with `length_width = 2` — the produced header byte's low nibble is 1. -/
theorem payload255_width_counterexample :
    (encode ⟨0, 0⟩ (List.replicate 255 7)).map (fun p => p.2.headD 0 % 16) = .ok 1 ∧
    (1 : Nat) ≠ 2 := by
  constructor <;> first | rfl | decide

set_option maxRecDepth 8000 in
/-- C9 amended: a payload of length exactly 255 encodes with
`length_width = 1`; width 2 first becomes necessary at length 256.  A
payload of length 0 is not round-trippable: it encodes as the single
header byte `0x00` (`length_width = 0`), on which a fresh decoder either
keeps asking for more data (one buffered byte) or fails with
`InvalidChunk` as soon as a further byte arrives. -/
theorem payload_width_boundaries :
    (encode ⟨0, 0⟩ (List.replicate 255 7)).map (fun p => p.2.headD 0 % 16) = .ok 1 ∧
    (encode ⟨0, 0⟩ (List.replicate 256 7)).map (fun p => p.2.headD 0 % 16) = .ok 2 ∧
    encode ⟨0, 0⟩ [] = .ok (⟨0, 0⟩, [0]) ∧
    decode ⟨0, 0⟩ [0] = (.ok none, ⟨0, 0⟩, [0]) ∧
    decode ⟨0, 0⟩ [0, 5] = (.error .invalidChunk, ⟨0, 0⟩, [0, 5]) := by
  refine ⟨rfl, rfl, rfl, rfl, rfl⟩

/-- C10: whenever `decode` returns an error it leaves the codec state
(both cursors) and the buffer unchanged: no bytes are consumed and no
counter is advanced on any error path. -/
theorem decode_error_no_side_effects (st st' : ChunkIOProto) (src src' : List Nat)
    (e : ChunkIOError) (h : decode st src = (.error e, st', src')) :
    st' = st ∧ src' = src := by
  have h2 := decode_error_eq st src e (by rw [h])
  rw [h] at h2
  injection h2 with h1 h2'
  injection h2' with hst hsrc
  exact ⟨hst, hsrc⟩

/-- Witness for C10 at the buffer `[0x09, 0x09]` (low nibble 9, an
`InvalidChunk` error). -/
theorem decode_error_no_side_effects_witness :
    (⟨0, 0⟩ : ChunkIOProto) = ⟨0, 0⟩ ∧ ([9, 9] : List Nat) = [9, 9] :=
  decode_error_no_side_effects ⟨0, 0⟩ ⟨0, 0⟩ [9, 9] [9, 9] .invalidChunk rfl

end ChunkIO
